import Mathlib

/-!
Verification of the janus-framework pipeline core against its specification.

The definitions below are shallow embeddings of the Go sources:
  * strictness policy and the link processing loop (`Base.shouldBreak`,
    `Base.processLoop` in the link base),
  * the value adapter (`Convert`, `CopyFields`, `adjustForInterface`),
  * the parameter/argument registry (`ParamHolder`, `SetArg`, `SetParam`,
    `SetArgsFromList`),
  * chain construction and the claim discipline (`NewChain`),
  * the MultiChain disperser/collector,
  * the chain Send/Close state machine.
Machine integers do not occur on the verified paths; Go maps are embedded as
association lists keyed by strings (map iteration order is irrelevant to the
properties proved here).
-/
namespace Janus

/-! Part: Strictness and error classification (constants.go, cherrors/errors.go) -/
/-- Model of `Strictness` from constants.go: Moderate = 0 (default), Lax, Strict. -/
inductive Strictness where
  | Moderate
  | Lax
  | Strict
deriving DecidableEq, Repr

/-- The error taxonomy of cherrors: `DebugError`, `ConversionError`,
`ProcessError`.  `wrapError` preserves the class and every other error coming
out of a link's `Process` is wrapped as a `ProcessError`, so a processing-loop
outcome is exactly one of these three kinds (or no error). -/
inductive ErrKind where
  | debug
  | conversion
  | process
deriving DecidableEq, Repr

/-- Model of `Base.handleDebugError`: type-switch on `*cherrors.DebugError`. -/
def handleDebugError (e : ErrKind) : Bool :=
  e = ErrKind.debug

/-- Model of `Base.shouldBreak` (base.go): nil error never breaks; a debug error is
logged and never breaks; Lax never breaks; Moderate does not break on a
conversion error; everything else breaks. -/
def shouldBreak (strictness : Strictness) (err : Option ErrKind) : Bool :=
  match err with
  | none => false
  | some e =>
    if handleDebugError e then false
    else
      let isConversionError := e = ErrKind.conversion
      if strictness = Strictness.Lax then false
      else if strictness = Strictness.Moderate ∧ isConversionError then false
      else true

/-- The chain error sink `BaseChain.handleError` is first-error-wins: once the
slot is occupied later reports are dropped. -/
def handleErrorSlot (slot : Option ErrKind) (e : ErrKind) : Option ErrKind :=
  match slot with
  | some e0 => some e0
  | none => some e

/-- State of one link's processing loop together with the chain error slot the
loop reports into. -/
structure LoopState where
  chainErr : Option ErrKind
  ignoreRemaining : Bool
deriving DecidableEq, Repr

def LoopState.init : LoopState := ⟨none, false⟩

/-- One iteration of `Base.processLoop` + `Base.process`: when the
ignore-remaining flag is up the item is drained without processing; otherwise
the item's `Process` outcome is classified by `shouldBreak`; a breaking error
is reported to the chain error sink and raises the flag. -/
def processStep (strictness : Strictness) (st : LoopState) (r : Option ErrKind) : LoopState :=
  if st.ignoreRemaining then st
  else if shouldBreak strictness r then
    match r with
    | some e => ⟨handleErrorSlot st.chainErr e, true⟩
    | none => st
  else st

/-- Model of `Base.processLoop`: fold the step over the stream of per-item `Process`
outcomes (a link is abstracted by the outcome it produces on each item). -/
def processLoop (strictness : Strictness) (results : List (Option ErrKind)) : LoopState :=
  results.foldl (processStep strictness) LoopState.init

/-! Part: The value adapter (glue.go: `Convert`, `typesMatch`,
`adjustForInterface`, `canCopyType`, `CopyFields`)

Go's reflect-level universe is embedded as follows: `GoType` is a reflect
type (named primitives, named struct types, pointers, interfaces given by
their method-name set); `GoVal` is a reflect value carrying its dynamic type.
A `MethodEnv` supplies the declarations that in Go live in the package
(struct field lists with their exported/settable status and zero values, and
the value-receiver / pointer-receiver method sets of named types).  The only
reflect-invalid value is the nil interface `GoVal.nilV` (untyped nil, as in
`reflect.ValueOf(nil)`). -/
inductive GoType where
  | prim (name : String)
  | structT (name : String)
  | ptr (t : GoType)
  | iface (methods : List String)
deriving DecidableEq, Repr

inductive GoVal where
  | nilV
  | prim (tyName : String) (payload : Nat)
  | structV (tyName : String) (fields : List (String × GoVal))
  | ptrV (pointee : GoVal)

/-- A destination struct field as reflect sees it: name, whether the field is
settable (exported), and the zero value `reflect.New` gives it. -/
structure FieldSpec where
  name : String
  exported : Bool
  zero : GoVal

structure MethodEnv where
  typeFields : String → List FieldSpec
  valMethods : String → List String
  ptrMethods : String → List String

/-- Model of `reflect.Value.Type()` of a valid value. -/
def typeOf : GoVal → GoType
  | GoVal.nilV => GoType.prim "<invalid>"
  | GoVal.prim n _ => GoType.prim n
  | GoVal.structV n _ => GoType.structT n
  | GoVal.ptrV p => GoType.ptr (typeOf p)

/-- Model of `typesMatch` (glue.go): reflect type identity. -/
def typesMatch (typeA typeB : GoType) : Bool :=
  typeA = typeB

/-- The method set of a type: named types carry their value-receiver methods;
a pointer to a named type additionally carries the pointer-receiver methods. -/
def methodSet (env : MethodEnv) : GoType → List String
  | GoType.prim n => env.valMethods n
  | GoType.structT n => env.valMethods n
  | GoType.ptr (GoType.prim n) => env.valMethods n ++ env.ptrMethods n
  | GoType.ptr (GoType.structT n) => env.valMethods n ++ env.ptrMethods n
  | _ => []

/-- Model of `Type.Implements`: every method of the interface is in the method set. -/
def implements (env : MethodEnv) (t : GoType) (methods : List String) : Bool :=
  methods.all (fun m => (methodSet env t).contains m)

/-- Model of `reflect.Value.Elem()` on a pointer value. -/
def elemOf : GoVal → GoVal
  | GoVal.ptrV p => p
  | v => v

/-- Model of `adjustForInterface` (glue.go): only for interface targets; try the value's
own type, then the pointee's type (dereferencing), then a fresh pointer to a
copy of the value. -/
def adjustForInterface (env : MethodEnv) (interfaceType : GoType) (structValue : GoVal) :
    Option GoVal :=
  match interfaceType with
  | GoType.iface ms =>
    let structType := typeOf structValue
    if implements env structType ms then some structValue
    else
      match structType with
      | GoType.ptr te =>
        if implements env te ms then some (elemOf structValue)
        else if implements env (GoType.ptr structType) ms then some (GoVal.ptrV structValue)
        else none
      | _ =>
        if implements env (GoType.ptr structType) ms then some (GoVal.ptrV structValue)
        else none
  | _ => none

/-- Model of `canCopyType` (glue.go): struct or pointer-to-struct. -/
def canCopyType : GoType → Bool
  | GoType.structT _ => true
  | GoType.ptr (GoType.structT _) => true
  | _ => false

/-- Adapter error kinds: `cherrors.NewDebugErrorf` vs
`cherrors.NewConversionErrorf`. -/
inductive AdaptErr where
  | debug
  | conversion
deriving DecidableEq, Repr

def AdaptErr.toErrKind : AdaptErr → ErrKind
  | AdaptErr.debug => ErrKind.debug
  | AdaptErr.conversion => ErrKind.conversion

/-- Model of `source.FieldByName(name)` on a struct value. -/
def fieldByName (fields : List (String × GoVal)) (n : String) : Option GoVal :=
  (fields.find? (fun f => f.1 = n)).map (fun f => f.2)

/-- Model of `CopyFields` (glue.go): walk the destination's fields; an unsettable
(unexported) field is skipped and keeps its zero value; a settable field whose
name is missing from the source is a conversion error; otherwise the source
field is copied in. -/
def CopyFields (srcFields : List (String × GoVal)) : List FieldSpec →
    Except AdaptErr (List (String × GoVal))
  | [] => Except.ok []
  | spec :: rest =>
    if !spec.exported then
      (CopyFields srcFields rest).map (fun tl => (spec.name, spec.zero) :: tl)
    else
      match fieldByName srcFields spec.name with
      | none => Except.error AdaptErr.conversion
      | some v => (CopyFields srcFields rest).map (fun tl => (spec.name, v) :: tl)

/-- Struct fields of a (dereferenced) struct value. -/
def fieldsOf : GoVal → List (String × GoVal)
  | GoVal.structV _ fs => fs
  | _ => []

/-- The struct name under an (optional) pointer type. -/
def structNameOf : GoType → String
  | GoType.structT n => n
  | GoType.ptr (GoType.structT n) => n
  | _ => ""

def GoType.isPtr : GoType → Bool
  | GoType.ptr _ => true
  | _ => false

def GoType.isIface : GoType → Bool
  | GoType.iface _ => true
  | _ => false

/-- Model of `Convert` (glue.go): invalid input is a debug error; identical types pass
through; interface adjustment; otherwise structural copy between structs or
pointers to structs, building a fresh destination of the target's underlying
struct shape. -/
def Convert (env : MethodEnv) (input : GoVal) (outputType : GoType) :
    Except AdaptErr GoVal :=
  match input with
  | GoVal.nilV => Except.error AdaptErr.debug
  | _ =>
    let inputType := typeOf input
    if typesMatch outputType inputType then Except.ok input
    else
      match adjustForInterface env outputType input with
      | some adjusted => Except.ok adjusted
      | none =>
        if outputType.isIface then Except.error AdaptErr.conversion
        else if !canCopyType inputType then Except.error AdaptErr.conversion
        else if !canCopyType outputType then Except.error AdaptErr.conversion
        else
          let inputValue := if inputType.isPtr then elemOf input else input
          let specs := env.typeFields (structNameOf outputType)
          match CopyFields (fieldsOf inputValue) specs with
          | Except.error e => Except.error e
          | Except.ok fs =>
            let outStruct := GoVal.structV (structNameOf outputType) fs
            if outputType.isPtr then Except.ok (GoVal.ptrV outStruct)
            else Except.ok outStruct

/-- Every settable (exported) destination field has a like-named source
field. -/
def allExportedPresent (sFields : List (String × GoVal)) (specs : List FieldSpec) : Bool :=
  specs.all (fun spec => !spec.exported || (fieldByName sFields spec.name).isSome)

/-- The destination field list `CopyFields` produces: exported fields get the
like-named source field, unexported fields keep their zero value. -/
def copiedFields (sFields : List (String × GoVal)) (specs : List FieldSpec) :
    List (String × GoVal) :=
  specs.map (fun spec =>
    (spec.name,
     if spec.exported then (fieldByName sFields spec.name).getD spec.zero else spec.zero))

/-- Source value shape: a struct or a pointer to a struct. -/
def wrapVal : Bool → GoVal → GoVal
  | true, v => GoVal.ptrV v
  | false, v => v

/-- Target type shape: a struct type or a pointer to a struct type. -/
def wrapTy : Bool → GoType → GoType
  | true, t => GoType.ptr t
  | false, t => t

/-- Concrete field-shape environment for the structural-copy witness: the
destination type `Small` has one exported field `Str` and one unexported
field `hidden`. -/
def witnessEnv : MethodEnv :=
  ⟨fun n =>
      if n = "Small" then
        [⟨"Str", true, GoVal.prim "string" 0⟩, ⟨"hidden", false, GoVal.prim "int" 0⟩]
      else [],
   fun _ => [], fun _ => []⟩

/-! Part: MultiChain disperser and collector (multichain.go) -/
/-- Model of `MultiChain.disperseInput`: write one input to every sibling input
channel (channels are embedded as the sequences of values delivered to
them). -/
def disperseInput {α : Type} (chanIns : List (List α)) (input : α) : List (List α) :=
  chanIns.map (fun ch => ch ++ [input])

/-- Model of `MultiChain.startDisperser`: drain the multi's input channel, dispersing
every value to each of the k sibling channels created by `createChannels`. -/
def startDisperser {α : Type} (k : Nat) (inputs : List α) : List (List α) :=
  inputs.foldl disperseInput (List.replicate k [])

/-- Model of `MultiChain.collectOutput`: drain each sibling's output channel in
declaration order, concatenating the results. -/
def collectOutput {β : Type} (siblingOutputs : List (List β)) : List β :=
  siblingOutputs.flatten

/-! Part: Chain construction and the claim discipline (chain.go `NewChain`,
base.go `claim` / `isClaimed`) -/
/-- The construction-time observable state of a link: the `claimed` bit set by
`claim()` and the error `Error()` reports. -/
structure LinkState where
  claimed : Bool
  err : Option String
deriving DecidableEq, Repr

/-- The construction-time observable state of a chain: the error slot and the
one-shot input-channel close. -/
structure ConstrState where
  err : Option String
  chanInClosed : Bool
deriving DecidableEq, Repr

/-- Model of `BaseChain.handleError` before the chain has started: close the input
channel once and store the error first-wins. -/
def constrHandleError (c : ConstrState) (e : String) : ConstrState :=
  { chanInClosed := true,
    err := match c.err with
           | some e0 => some e0
           | none => some e }

/-- The body of the `NewChain` loop for one link: an already-claimed link is
reported as in-use, the link is claimed, and a link constructed in error has
its error forwarded. -/
def claimStep (acc : ConstrState × List LinkState) (l : LinkState) :
    ConstrState × List LinkState :=
  let c1 := if l.claimed then constrHandleError acc.1 "link is in-use by another chain"
            else acc.1
  let l' : LinkState := { l with claimed := true }
  let c2 := match l'.err with
            | some e => constrHandleError c1 e
            | none => c1
  (c2, acc.2 ++ [l'])

/-- Model of `NewChain`: fold the claim discipline over the handed-in links. -/
def NewChain (links : List LinkState) : ConstrState × List LinkState :=
  links.foldl claimStep (⟨none, false⟩, [])

/-! Part: Chain Send/Close state machine (chain.go `Send`, `Close`,
`handleError`) -/
/-- Runtime-observable chain state for `Send`/`Close`: the closed flag, the
started flag, the one-shot input-channel close, and the first-error-wins
slot. -/
structure ChainRt where
  isClosed : Bool
  started : Bool
  chanInClosed : Bool
  err : Option String
deriving DecidableEq, Repr

def ChainRt.fresh : ChainRt := ⟨false, false, false, none⟩

/-- Model of `BaseChain.handleError` at runtime: (drain the input channel,) close it
once, and store the error only if the slot is still empty. -/
def chainHandleError (c : ChainRt) (e : String) : ChainRt :=
  { c with chanInClosed := true,
           err := match c.err with
                  | some e0 => some e0
                  | none => some e }

/-- Model of `BaseChain.Close`: start if unstarted, close the input channel once, mark
closed. -/
def ChainRt.close (c : ChainRt) : ChainRt :=
  { c with started := true, chanInClosed := true, isClosed := true }

/-- Model of `BaseChain.Send` control flow: a closed chain reports "chain is closed"
through `handleError` and returns that error; otherwise the chain is started,
and a chain already in error returns "chain is in error state: ..." without
delivering; otherwise the values are delivered.  The returned `Option String`
is the error result the caller sees. -/
def ChainRt.send (c : ChainRt) : ChainRt × Option String :=
  if c.isClosed then
    (chainHandleError c "chain is closed", some "chain is closed")
  else
    let c1 : ChainRt := { c with started := true }
    match c1.err with
    | some e => (c1, some ("chain is in error state: " ++ e))
    | none => (c1, none)

/-! Part: Parameter & argument registry (cfg/param.go, cfg ParamHolder,
util/convert.go)

Parameter values are embedded as a tagged universe `PVal` covering the
primitive shapes the registry converts from CLI strings, plus an opaque tag
for user types (Go's `any`).  A parameter's Go type parameter `T` is embedded
as its type-name string, matching `ParamImpl.Type()`; the Go type assertion
`value.(T)` becomes a tag comparison.  float64 parsing is not modelled (no
verified path touches it); `convertPrimative` reports it as unsupported. -/
inductive PVal where
  | str (s : String)
  | int (n : Int)
  | boolV (b : Bool)
  | strList (l : List String)
  | intList (l : List Int)
  | boolList (l : List Bool)
  | other (tag : String)
deriving DecidableEq, Repr

/-- The dynamic type name of a value (`fmt.Sprintf("%T", v)` for primitives;
user types carry their tag). -/
def PVal.tyName : PVal → String
  | PVal.str _ => "string"
  | PVal.int _ => "int"
  | PVal.boolV _ => "bool"
  | PVal.strList _ => "[]string"
  | PVal.intList _ => "[]int"
  | PVal.boolList _ => "[]bool"
  | PVal.other tag => tag

/-- Model of `strconv.ParseBool`. -/
def parseGoBool (s : String) : Except String Bool :=
  if s = "1" ∨ s = "t" ∨ s = "T" ∨ s = "TRUE" ∨ s = "true" ∨ s = "True" then
    Except.ok true
  else if s = "0" ∨ s = "f" ∨ s = "F" ∨ s = "FALSE" ∨ s = "false" ∨ s = "False" then
    Except.ok false
  else Except.error ("invalid syntax for bool: " ++ s)

/-- Model of `strconv.Atoi`. -/
def parseGoInt (s : String) : Except String Int :=
  match s.toInt? with
  | some n => Except.ok n
  | none => Except.error ("invalid syntax for int: " ++ s)

def parseGoIntList (s : String) : Except String (List Int) :=
  (s.splitOn ",").foldr
    (fun v acc => do
      let n ← parseGoInt v
      let rest ← acc
      pure (n :: rest))
    (Except.ok [])

def parseGoBoolList (s : String) : Except String (List Bool) :=
  (s.splitOn ",").foldr
    (fun v acc => do
      let b ← parseGoBool v
      let rest ← acc
      pure (b :: rest))
    (Except.ok [])

/-- The type names `util.conversionFuncs` covers (`util.IsConvertable`). -/
def isConvertable (t : String) : Bool :=
  ["string", "int", "float64", "bool", "[]string", "[]int", "[]float64", "[]bool"].contains t

/-- Model of `util.ConvertPrimative`: dispatch the built-in string converter by type
name.  (`convertStringSlice` maps the empty string to the empty slice.) -/
def convertPrimative (vType value : String) : Except String PVal :=
  if vType = "string" then Except.ok (PVal.str value)
  else if vType = "int" then (parseGoInt value).map PVal.int
  else if vType = "bool" then (parseGoBool value).map PVal.boolV
  else if vType = "[]string" then
    Except.ok (PVal.strList (if value = "" then [] else value.splitOn ","))
  else if vType = "[]int" then (parseGoIntList value).map PVal.intList
  else if vType = "[]bool" then (parseGoBoolList value).map PVal.boolList
  else Except.error ("no converter found for type " ++ vType)

/-- Model of `cfg.ParamImpl`: declaration plus current binding state.  `value` holds
the zero value of the parameter type until bound (`Value()` returns it
regardless of `hasValue`). -/
structure Param where
  name : String
  description : String
  shortcode : String
  required : Bool
  ptype : String
  value : PVal
  hasValue : Bool
  hasBeenSet : Bool
  hasDefault : Bool
  regex : Option String
  converter : Option (String → Except String PVal)

/-- Model of `ParamImpl.Identifier()`: name:description:type:required, plus the regex
source when present. -/
def Param.identifier (p : Param) : String :=
  p.name ++ ":" ++ p.description ++ ":" ++ p.ptype ++ ":"
    ++ (if p.required then "true" else "false")
    ++ (match p.regex with
        | some r => ":" ++ r
        | none => "")

/-- Model of `ParamImpl.Flag()`: the shortcode when present, else the name. -/
def Param.flag (p : Param) : String :=
  if p.shortcode = "" then p.name else p.shortcode

/-- Model of `ParamImpl.convertFromCLIString`: the custom converter when present, else
the built-in primitive converter for the parameter's type. -/
def Param.convertFromCLIString (p : Param) (value : String) : Except String PVal :=
  match p.converter with
  | some f => f value
  | none => convertPrimative p.ptype value

/-- Model of `ParamImpl.setValueDirectly`: the Go type assertion `value.(T)`, then
record the binding. -/
def Param.setValueDirectly (p : Param) (v : PVal) : Except String Param :=
  if v.tyName = p.ptype then
    Except.ok { p with value := v, hasValue := true, hasBeenSet := true }
  else
    Except.error ("parameter " ++ p.name ++ " expects type " ++ p.ptype
      ++ ", but argument value is type " ++ v.tyName)

/-- Model of `ParamImpl.SetValue`: a string value goes through the CLI-string
converter first; everything else is bound directly. -/
def Param.SetValue (p : Param) (v : PVal) : Except String Param :=
  match v with
  | PVal.str s =>
    match p.convertFromCLIString s with
    | Except.error e => Except.error e
    | Except.ok converted => p.setValueDirectly converted
  | _ => p.setValueDirectly v

/-- Model of `ParamImpl.isValidForShortcode` as a Boolean: no shortcode, or a custom
converter, or a built-in-convertible type. -/
def Param.shortcodeOk (p : Param) : Bool :=
  p.shortcode = "" || p.converter.isSome || isConvertable p.ptype

/-- Model of `pendingArg` (cfg): a value supplied before its parameter was declared. -/
structure PendingArg where
  name : String
  flag : String
  fromCLI : Bool
  value : PVal

def newPendingArg (name : String) (value : PVal) : PendingArg :=
  ⟨name, "", false, value⟩

/-! Part: association lists stand in for Go maps (one binding per key). -/
def alookup {α : Type} : List (String × α) → String → Option α
  | [], _ => none
  | (k', v) :: rest, k => if k' = k then some v else alookup rest k

def ainsert {α : Type} : List (String × α) → String → α → List (String × α)
  | [], k, v => [(k, v)]
  | (k', v') :: rest, k, v =>
    if k' = k then (k, v) :: rest else (k', v') :: ainsert rest k v

def aerase {α : Type} : List (String × α) → String → List (String × α)
  | [], _ => []
  | (k', v') :: rest, k => if k' = k then rest else (k', v') :: aerase rest k

/-- Model of `cfg.ParamHolder`: the declared-parameter table and the pending-argument
table. -/
structure ParamHolder where
  params : List (String × Param)
  pending : List (String × PendingArg)

def ParamHolder.new : ParamHolder := ⟨[], []⟩

def ParamHolder.getParam (ph : ParamHolder) (name : String) : Option Param :=
  alookup ph.params name

def ParamHolder.HasParam (ph : ParamHolder) (name : String) : Bool :=
  (ph.getParam name).isSome

/-- Model of `ParamHolder.WasSet`. -/
def ParamHolder.WasSet (ph : ParamHolder) (name : String) : Bool :=
  match ph.getParam name with
  | none => false
  | some p => p.hasBeenSet

/-- Model of `ParamHolder.getParamByFlag`: try the name key first, then scan for a
parameter whose flag matches. -/
def ParamHolder.getParamByFlag (ph : ParamHolder) (flag : String) : Option Param :=
  match ph.getParam flag with
  | some p => some p
  | none => (ph.params.find? (fun kv => kv.2.flag = flag)).map (fun kv => kv.2)

/-- Model of `ParamHolder.setArg`: undeclared name goes to the pending table; a
declared parameter is bound through `SetValue` and stored back under its
name. -/
def ParamHolder.setArg (ph : ParamHolder) (arg : PendingArg) : Except String ParamHolder :=
  match ph.getParamByFlag arg.name with
  | none => Except.ok { ph with pending := ainsert ph.pending arg.name arg }
  | some param =>
    match param.SetValue arg.value with
    | Except.error e => Except.error e
    | Except.ok p' => Except.ok { ph with params := ainsert ph.params p'.name p' }

/-- Model of `ParamHolder.SetArg`. -/
def ParamHolder.SetArg (ph : ParamHolder) (name : String) (value : PVal) :
    Except String ParamHolder :=
  ph.setArg (newPendingArg name value)

/-- Model of `ParamHolder.getPendingValue`: pending under the name key, else under the
flag key. -/
def ParamHolder.getPendingValue (ph : ParamHolder) (param : Param) : Option PVal :=
  match alookup ph.pending param.name with
  | some pa => some pa.value
  | none =>
    match alookup ph.pending param.flag with
    | some pa => some pa.value
    | none => none

/-- Model of `ParamHolder.deletePendingValue`. -/
def ParamHolder.deletePendingValue (ph : ParamHolder) (param : Param) : ParamHolder :=
  if (alookup ph.pending param.name).isSome then
    { ph with pending := aerase ph.pending param.name }
  else if (alookup ph.pending param.flag).isSome then
    { ph with pending := aerase ph.pending param.flag }
  else ph

/-- Model of `ParamHolder.SetParam`: reject a same-name declaration with a different
identity; validate the shortcode; drain a matching pending value through
`SetValue`; store the parameter under its name. -/
def ParamHolder.SetParam (ph : ParamHolder) (param : Param) : Except String ParamHolder :=
  let collision : Bool :=
    match ph.getParam param.name with
    | some retrieved => retrieved.identifier != param.identifier
    | none => false
  if collision then Except.error ("param already exists with name " ++ param.name)
  else if !param.shortcodeOk then
    Except.error ("invalid shortcode for param " ++ param.name)
  else
    match ph.getPendingValue param with
    | some pendingV =>
      match param.SetValue pendingV with
      | Except.error e => Except.error e
      | Except.ok param' =>
        let ph' := ph.deletePendingValue param'
        Except.ok { ph' with params := ainsert ph'.params param'.name param' }
    | none => Except.ok { ph with params := ainsert ph.params param.name param }

/-- Model of `ParamHolder.Arg`: the declared parameter's current value, else the
pending value, else nothing. -/
def ParamHolder.Arg (ph : ParamHolder) (name : String) : Option PVal :=
  match ph.getParam name with
  | some p => some p.value
  | none =>
    match alookup ph.pending name with
    | some pa => some pa.value
    | none => none

/-- Model of `ParamHolder.Args`: every declared parameter that has a value. -/
def ParamHolder.Args (ph : ParamHolder) : List (String × PVal) :=
  ph.params.filterMap (fun kv => if kv.2.hasValue then some (kv.1, kv.2.value) else none)

/-- The parameter used by the C6 witness: a plain string parameter with no
shortcode, no converter, no regex. -/
def outfileParam : Param :=
  ⟨"outfile", "output file", "", false, "string", PVal.str "", false, false, false, none, none⟩

/-- Model of `outfileParam` after binding "out.json". -/
def outfileParamSet : Param :=
  { outfileParam with value := PVal.str "out.json", hasValue := true, hasBeenSet := true }

/-! Part: Chain argument propagation (chain.go `BaseChain.setArgs`) -/
/-- Model of `BaseChain.setArgs`: for each chain-level bound argument, copy it into the
child registry only when the child declares the parameter and has not
explicitly set it. -/
def setArgs (ph : ParamHolder) : List (String × PVal) → Except String ParamHolder
  | [] => Except.ok ph
  | (k, v) :: rest =>
    if ph.HasParam k && !ph.WasSet k then
      match ph.SetArg k v with
      | Except.error e => Except.error e
      | Except.ok ph1 => setArgs ph1 rest
    else setArgs ph rest

/-- Well-formedness of the params table (maintained by the source, which
always stores a parameter under `param.Name()`): every entry's key is its
parameter's name. -/
def WFP (l : List (String × Param)) : Prop :=
  ∀ k p, alookup l k = some p → p.name = k

/-- Parameter "argument" as the C5 witness link was constructed with it:
explicitly set to "123". -/
def c5ArgParam : Param :=
  ⟨"argument", "link arg", "", false, "string", PVal.str "123", true, true, false,
   none, none⟩

/-- Parameter "profile" of the C5 witness link: declared, never set. -/
def c5ProfileParam : Param :=
  ⟨"profile", "profile name", "", false, "string", PVal.str "", false, false, false,
   none, none⟩

/-- Concrete registry for the C5 witness: parameter "argument" was explicitly
set at link construction, parameter "profile" was not. -/
def c5Link : ParamHolder :=
  ⟨[("argument", c5ArgParam), ("profile", c5ProfileParam)], []⟩

/-- The "profile" parameter of `c5Link` after the chain copies "test-profile"
into it. -/
def c5ProfileSet : Param :=
  { c5ProfileParam with
    value := PVal.str "test-profile"
    hasValue := true
    hasBeenSet := true }

/-- The registry after propagating the C5 witness chain arguments. -/
def c5Result : ParamHolder :=
  ⟨[("argument", c5ArgParam), ("profile", c5ProfileSet)], []⟩

/-! Part: CLI token parsing (`ParamHolder.SetArgsFromList`) -/
/-- Model of `strings.HasPrefix(arg, "-")` for the single-character prefix "-". -/
def hasDashPrefix (s : String) : Bool :=
  match s.data with
  | [] => false
  | c :: _ => c = '-'

/-- The `for strings.HasPrefix(arg, "-") { arg = strings.TrimPrefix(arg, "-") }`
loop: strip every leading dash character. -/
def trimDashes (s : String) : String :=
  ⟨s.data.dropWhile (fun c => c = '-')⟩

/-- The token-scanning loop of `SetArgsFromList`: a dash-prefixed token opens
a fresh entry for its flag (resetting any previous accumulation under that
flag) and becomes the current flag; any other token appends to the current
flag's accumulation; a token arriving while the current flag has no entry is
a format error.  (The `shellquote.Join`/`Split` round-trip the source applies
first is the identity on the token list and is elided.) -/
def parseCLITokens : List String → List (String × List String) → String →
    Except String (List (String × List String))
  | [], acc, _ => Except.ok acc
  | arg :: rest, acc, currentFlag =>
    if hasDashPrefix arg then
      parseCLITokens rest (ainsert acc (trimDashes arg) []) (trimDashes arg)
    else
      match alookup acc currentFlag with
      | none => Except.error ("encountered argument with no flag: " ++ arg)
      | some vs => parseCLITokens rest (ainsert acc currentFlag (vs ++ [arg])) currentFlag

/-- The binding loop of `SetArgsFromList`: each flag's accumulated tokens are
joined with commas into one string value, marked from-CLI with its flag, and
bound via `setArg`. -/
def bindParsed (ph : ParamHolder) : List (String × List String) → Except String ParamHolder
  | [] => Except.ok ph
  | (flag, values) :: rest =>
    match ph.setArg ⟨flag, flag, true, PVal.str (String.intercalate "," values)⟩ with
    | Except.error e => Except.error e
    | Except.ok ph1 => bindParsed ph1 rest

/-- Model of `ParamHolder.SetArgsFromList`: parse, then join-and-bind. -/
def SetArgsFromList (ph : ParamHolder) (args : List String) : Except String ParamHolder :=
  match parseCLITokens args [] "" with
  | Except.error e => Except.error e
  | Except.ok semiparsed => bindParsed ph semiparsed

/-- A flag token: "-" prepended to the flag name. -/
def mkFlagToken (f : String) : String :=
  ⟨'-' :: f.data⟩

/-- The token list `[-f₁, v…, -f₂, v…, …]` of a structured flag/value group
list. -/
def flattenGroups (groups : List (String × List String)) : List String :=
  (groups.map (fun g => mkFlagToken g.1 :: g.2)).flatten

/-! Part: theorems about the embedded operations, settling the
specification claims. -/

/-- Once the ignore-remaining flag is up, the loop drains without changing
state. -/
theorem processLoop_frozen (s : Strictness) (results : List (Option ErrKind))
    (st : LoopState) (h : st.ignoreRemaining = true) :
    results.foldl (processStep s) st = st := by
  induction results with
  | nil => rfl
  | cons r rs ih =>
    simp only [List.foldl_cons, processStep, h, if_true]
    exact ih

theorem processLoop_inv (s : Strictness) (results : List (Option ErrKind)) :
    ((processLoop s results).chainErr ≠ none) ↔
      ∃ r ∈ results, shouldBreak s r = true := by
  suffices h : ∀ (rs : List (Option ErrKind)) (st : LoopState),
      st.ignoreRemaining = false → st.chainErr = none →
      (((rs.foldl (processStep s) st).chainErr ≠ none) ↔
        ∃ r ∈ rs, shouldBreak s r = true) by
    exact h results LoopState.init rfl rfl
  intro rs
  induction rs with
  | nil =>
    intro st _ hc
    simp [hc]
  | cons r rs ih =>
    intro st hig hc
    by_cases hb : shouldBreak s r = true
    · cases r with
      | none => simp [shouldBreak] at hb
      | some e =>
        have hstep : processStep s st (some e) = ⟨handleErrorSlot st.chainErr e, true⟩ := by
          simp [processStep, hig, hb]
        rw [List.foldl_cons, hstep, processLoop_frozen s rs _ rfl]
        simp [handleErrorSlot, hc, hb]
    · have hstep : processStep s st r = st := by
        simp [processStep, hig, hb]
      rw [List.foldl_cons, hstep, ih st hig hc]
      constructor
      · intro ⟨r', hr', hbr'⟩
        exact ⟨r', List.mem_cons_of_mem _ hr', hbr'⟩
      · intro ⟨r', hr', hbr'⟩
        rcases List.mem_cons.mp hr' with h1 | h2
        · subst h1; exact absurd hbr' hb
        · exact ⟨r', h2, hbr'⟩

theorem shouldBreak_lax (r : Option ErrKind) : shouldBreak Strictness.Lax r = false := by
  cases r with
  | none => rfl
  | some e => cases e <;> rfl

theorem shouldBreak_moderate (r : Option ErrKind) :
    shouldBreak Strictness.Moderate r = true ↔ r = some ErrKind.process := by
  cases r with
  | none => simp [shouldBreak]
  | some e => cases e <;> simp [shouldBreak, handleDebugError]

theorem shouldBreak_strict (r : Option ErrKind) :
    shouldBreak Strictness.Strict r = true ↔
      (r = some ErrKind.process ∨ r = some ErrKind.conversion) := by
  cases r with
  | none => simp [shouldBreak]
  | some e => cases e <;> simp [shouldBreak, handleDebugError]

/-- C1: The strictness policy decides kill-vs-continue exactly as the table
states, for every link (abstracted by its stream of per-item `Process`
outcomes) and every erroring input item: under Lax the chain error slot stays
empty (neither conversion nor process errors are reported); under Moderate the
slot is non-empty exactly when some item produced a process error (a
conversion error alone leaves it empty); under Strict the slot is non-empty
exactly when some item produced a process or conversion error. -/
theorem strictness_policy_table (results : List (Option ErrKind)) :
    (processLoop Strictness.Lax results).chainErr = none
    ∧ ((processLoop Strictness.Moderate results).chainErr ≠ none ↔
        some ErrKind.process ∈ results)
    ∧ ((processLoop Strictness.Strict results).chainErr ≠ none ↔
        (some ErrKind.process ∈ results ∨ some ErrKind.conversion ∈ results)) := by
  refine ⟨?_, ?_, ?_⟩
  · by_contra h
    rw [← ne_eq, processLoop_inv] at h
    obtain ⟨r, _, hbr⟩ := h
    rw [shouldBreak_lax] at hbr
    exact Bool.false_ne_true hbr
  · rw [processLoop_inv]
    constructor
    · intro ⟨r, hr, hbr⟩
      rw [shouldBreak_moderate] at hbr
      exact hbr ▸ hr
    · intro h
      exact ⟨some ErrKind.process, h, (shouldBreak_moderate _).mpr rfl⟩
  · rw [processLoop_inv]
    constructor
    · intro ⟨r, hr, hbr⟩
      rcases (shouldBreak_strict r).mp hbr with h1 | h2
      · exact Or.inl (h1 ▸ hr)
      · exact Or.inr (h2 ▸ hr)
    · intro h
      rcases h with h1 | h2
      · exact ⟨some ErrKind.process, h1, (shouldBreak_strict _).mpr (Or.inl rfl)⟩
      · exact ⟨some ErrKind.conversion, h2, (shouldBreak_strict _).mpr (Or.inr rfl)⟩

/-- C1 witness: concrete evaluation at a stream containing one conversion
error and one process error — Lax stores nothing; Moderate and Strict store an
error because a process error is present. -/
theorem strictness_policy_table_witness :
    (processLoop Strictness.Lax [some ErrKind.conversion, some ErrKind.process]).chainErr = none
    ∧ ((processLoop Strictness.Moderate [some ErrKind.conversion, some ErrKind.process]).chainErr ≠ none ↔
        some ErrKind.process ∈ [some ErrKind.conversion, some ErrKind.process])
    ∧ ((processLoop Strictness.Strict [some ErrKind.conversion, some ErrKind.process]).chainErr ≠ none ↔
        (some ErrKind.process ∈ [some ErrKind.conversion, some ErrKind.process]
          ∨ some ErrKind.conversion ∈ [some ErrKind.conversion, some ErrKind.process])) :=
  strictness_policy_table [some ErrKind.conversion, some ErrKind.process]

/-- C3: identity rule — for every reflect-valid value, `Convert` at the
value's own dynamic type succeeds with the value unchanged (the `typesMatch`
test fires before interface adjustment and structural copy). -/
theorem convert_identity (env : MethodEnv) (v : GoVal) (h : v ≠ GoVal.nilV) :
    Convert env v (typeOf v) = Except.ok v := by
  cases v with
  | nilV => exact absurd rfl h
  | prim n p => simp [Convert, typesMatch]
  | structV n fs => simp [Convert, typesMatch]
  | ptrV p => simp [Convert, typesMatch]

/-- C3 witness: a concrete struct value adapts to its own type unchanged. -/
theorem convert_identity_witness :
    (GoVal.structV "Asset" [("Name", GoVal.prim "string" 0)] ≠ GoVal.nilV)
    ∧ Convert ⟨fun _ => [], fun _ => [], fun _ => []⟩
        (GoVal.structV "Asset" [("Name", GoVal.prim "string" 0)])
        (typeOf (GoVal.structV "Asset" [("Name", GoVal.prim "string" 0)]))
        = Except.ok (GoVal.structV "Asset" [("Name", GoVal.prim "string" 0)]) :=
  ⟨fun hcontra => GoVal.noConfusion hcontra,
   convert_identity _ _ (fun hcontra => GoVal.noConfusion hcontra)⟩

theorem CopyFields_ok (sFields : List (String × GoVal)) (specs : List FieldSpec)
    (h : allExportedPresent sFields specs = true) :
    CopyFields sFields specs = Except.ok (copiedFields sFields specs) := by
  induction specs with
  | nil => rfl
  | cons spec rest ih =>
    rw [allExportedPresent, List.all_cons, Bool.and_eq_true] at h
    obtain ⟨hhead, htail⟩ := h
    have ihr := ih htail
    cases hexp : spec.exported with
    | false =>
      simp [CopyFields, hexp, ihr, copiedFields, Except.map]
    | true =>
      rw [hexp] at hhead
      simp only [Bool.not_true, Bool.false_or] at hhead
      obtain ⟨v, hv⟩ := Option.isSome_iff_exists.mp hhead
      simp [CopyFields, hexp, hv, ihr, copiedFields, Except.map]

theorem CopyFields_err (sFields : List (String × GoVal)) (specs : List FieldSpec)
    (h : allExportedPresent sFields specs = false) :
    CopyFields sFields specs = Except.error AdaptErr.conversion := by
  induction specs with
  | nil => simp [allExportedPresent] at h
  | cons spec rest ih =>
    rw [allExportedPresent, List.all_cons, Bool.and_eq_false_iff] at h
    cases hexp : spec.exported with
    | false =>
      have htail : allExportedPresent sFields rest = false := by
        rcases h with h1 | h2
        · rw [hexp] at h1; simp at h1
        · exact h2
      simp [CopyFields, hexp, ih htail, Except.map]
    | true =>
      cases hfind : fieldByName sFields spec.name with
      | none => simp [CopyFields, hexp, hfind]
      | some v =>
        have htail : allExportedPresent sFields rest = false := by
          rcases h with h1 | h2
          · rw [hexp, hfind] at h1; simp at h1
          · exact h2
        simp [CopyFields, hexp, hfind, ih htail, Except.map]

/-- For a struct (or pointer-to-struct) source and a different struct (or
pointer-to-struct) target, `Convert` is exactly `CopyFields` on the target's
field shape, wrapped back into the target's pointer shape. -/
theorem convert_struct_copy_eq (env : MethodEnv) (sName dName : String)
    (sFields : List (String × GoVal)) (srcPtr dstPtr : Bool)
    (hne : typeOf (wrapVal srcPtr (GoVal.structV sName sFields))
            ≠ wrapTy dstPtr (GoType.structT dName)) :
    Convert env (wrapVal srcPtr (GoVal.structV sName sFields))
        (wrapTy dstPtr (GoType.structT dName)) =
      match CopyFields sFields (env.typeFields dName) with
      | Except.error e => Except.error e
      | Except.ok fs => Except.ok (wrapVal dstPtr (GoVal.structV dName fs)) := by
  cases srcPtr with
  | false =>
    cases dstPtr with
    | false =>
      simp only [wrapVal, wrapTy, typeOf] at hne ⊢
      have hmm : typesMatch (GoType.structT dName) (GoType.structT sName) = false := by
        simp only [typesMatch, decide_eq_false_iff_not]
        exact fun hab => hne hab.symm
      cases hcf : CopyFields sFields (env.typeFields dName) <;>
        simp [Convert, typeOf, hmm, adjustForInterface, GoType.isIface, canCopyType,
          GoType.isPtr, elemOf, fieldsOf, structNameOf, hcf, wrapVal]
    | true =>
      simp only [wrapVal, wrapTy, typeOf] at hne ⊢
      have hmm : typesMatch (GoType.ptr (GoType.structT dName)) (GoType.structT sName) = false := by
        simp only [typesMatch, decide_eq_false_iff_not]
        exact fun hab => hne hab.symm
      cases hcf : CopyFields sFields (env.typeFields dName) <;>
        simp [Convert, typeOf, hmm, adjustForInterface, GoType.isIface, canCopyType,
          GoType.isPtr, elemOf, fieldsOf, structNameOf, hcf, wrapVal]
  | true =>
    cases dstPtr with
    | false =>
      simp only [wrapVal, wrapTy, typeOf] at hne ⊢
      have hmm : typesMatch (GoType.structT dName) (GoType.ptr (GoType.structT sName)) = false := by
        simp only [typesMatch, decide_eq_false_iff_not]
        exact fun hab => hne hab.symm
      cases hcf : CopyFields sFields (env.typeFields dName) <;>
        simp [Convert, typeOf, hmm, adjustForInterface, GoType.isIface, canCopyType,
          GoType.isPtr, elemOf, fieldsOf, structNameOf, hcf, wrapVal]
    | true =>
      simp only [wrapVal, wrapTy, typeOf] at hne ⊢
      have hmm : typesMatch (GoType.ptr (GoType.structT dName)) (GoType.ptr (GoType.structT sName)) = false := by
        simp only [typesMatch, decide_eq_false_iff_not]
        exact fun hab => hne hab.symm
      cases hcf : CopyFields sFields (env.typeFields dName) <;>
        simp [Convert, typeOf, hmm, adjustForInterface, GoType.isIface, canCopyType,
          GoType.isPtr, elemOf, fieldsOf, structNameOf, hcf, wrapVal]

/-- C2: when the target is a struct (or pointer to struct) different from the
source's type and the source is a struct (or pointer to struct, dereferenced
first), `Convert` builds a fresh destination of the target's struct shape in
which every settable field is copied from the like-named source field and
unexported fields are skipped (keeping their zero value); it fails with a
conversion error exactly when some settable destination field has no
like-named source field; in particular a source whose field names cover all
destination fields adapts successfully, dropping the extras. -/
theorem convert_struct_copy (env : MethodEnv) (sName dName : String)
    (sFields : List (String × GoVal)) (srcPtr dstPtr : Bool)
    (hne : typeOf (wrapVal srcPtr (GoVal.structV sName sFields))
            ≠ wrapTy dstPtr (GoType.structT dName)) :
    (allExportedPresent sFields (env.typeFields dName) = true →
      Convert env (wrapVal srcPtr (GoVal.structV sName sFields))
          (wrapTy dstPtr (GoType.structT dName))
        = Except.ok (wrapVal dstPtr
            (GoVal.structV dName (copiedFields sFields (env.typeFields dName)))))
    ∧ (allExportedPresent sFields (env.typeFields dName) = false →
      Convert env (wrapVal srcPtr (GoVal.structV sName sFields))
          (wrapTy dstPtr (GoType.structT dName))
        = Except.error AdaptErr.conversion)
    ∧ ((env.typeFields dName).all (fun spec => (fieldByName sFields spec.name).isSome) = true →
      Convert env (wrapVal srcPtr (GoVal.structV sName sFields))
          (wrapTy dstPtr (GoType.structT dName))
        = Except.ok (wrapVal dstPtr
            (GoVal.structV dName (copiedFields sFields (env.typeFields dName))))) := by
  refine ⟨?_, ?_, ?_⟩
  · intro h
    rw [convert_struct_copy_eq env sName dName sFields srcPtr dstPtr hne,
      CopyFields_ok sFields _ h]
  · intro h
    rw [convert_struct_copy_eq env sName dName sFields srcPtr dstPtr hne,
      CopyFields_err sFields _ h]
  · intro h
    have hall : allExportedPresent sFields (env.typeFields dName) = true := by
      rw [allExportedPresent, List.all_eq_true]
      intro spec hspec
      rw [List.all_eq_true] at h
      rw [h spec hspec, Bool.or_true]
    rw [convert_struct_copy_eq env sName dName sFields srcPtr dstPtr hne,
      CopyFields_ok sFields _ hall]

/-- C2 witness: a source struct `Big{Str, Additional}` (a strict superset of
`Small`'s exported fields) adapts to `Small`, dropping the extra field and
leaving the unexported field at its zero value. -/
theorem convert_struct_copy_witness :
    (typeOf (wrapVal false (GoVal.structV "Big"
        [("Str", GoVal.prim "string" 7), ("Additional", GoVal.prim "string" 8)]))
      ≠ wrapTy false (GoType.structT "Small"))
    ∧ Convert witnessEnv
        (wrapVal false (GoVal.structV "Big"
          [("Str", GoVal.prim "string" 7), ("Additional", GoVal.prim "string" 8)]))
        (wrapTy false (GoType.structT "Small"))
      = Except.ok (wrapVal false (GoVal.structV "Small"
          (copiedFields
            [("Str", GoVal.prim "string" 7), ("Additional", GoVal.prim "string" 8)]
            (witnessEnv.typeFields "Small")))) := by
  have hne : typeOf (wrapVal false (GoVal.structV "Big"
      [("Str", GoVal.prim "string" 7), ("Additional", GoVal.prim "string" 8)]))
      ≠ wrapTy false (GoType.structT "Small") := by
    simp [wrapVal, wrapTy, typeOf]
  refine ⟨hne, ?_⟩
  have h := (convert_struct_copy witnessEnv "Big" "Small"
    [("Str", GoVal.prim "string" 7), ("Additional", GoVal.prim "string" 8)]
    false false hne).1
  exact h (by simp [allExportedPresent, witnessEnv, fieldByName, List.find?])

/-- C9: a nil (reflect-invalid) emission fails with the distinguished
debug-level adapt-error — not a conversion error — and the processing loop
classifies it as a debug error, logs it, and continues under every strictness
mode: the loop state (error slot and ignore-remaining flag) is unchanged. -/
theorem nil_input_debug_error (env : MethodEnv) (T : GoType) (s : Strictness)
    (st : LoopState) :
    Convert env GoVal.nilV T = Except.error AdaptErr.debug
    ∧ AdaptErr.debug ≠ AdaptErr.conversion
    ∧ handleDebugError AdaptErr.debug.toErrKind = true
    ∧ shouldBreak s (some AdaptErr.debug.toErrKind) = false
    ∧ processStep s st (some AdaptErr.debug.toErrKind) = st := by
  refine ⟨rfl, fun hcontra => AdaptErr.noConfusion hcontra, rfl, rfl, ?_⟩
  have hsb : shouldBreak s (some AdaptErr.debug.toErrKind) = false := rfl
  cases hst : st.ignoreRemaining <;> simp [processStep, hst, hsb]

/-- C9 witness: concrete evaluation with an empty method environment, a
string target type, Strict strictness, and the initial loop state. -/
theorem nil_input_debug_error_witness :
    Convert ⟨fun _ => [], fun _ => [], fun _ => []⟩ GoVal.nilV (GoType.prim "string")
        = Except.error AdaptErr.debug
    ∧ AdaptErr.debug ≠ AdaptErr.conversion
    ∧ handleDebugError AdaptErr.debug.toErrKind = true
    ∧ shouldBreak Strictness.Strict (some AdaptErr.debug.toErrKind) = false
    ∧ processStep Strictness.Strict LoopState.init (some AdaptErr.debug.toErrKind)
        = LoopState.init :=
  nil_input_debug_error ⟨fun _ => [], fun _ => [], fun _ => []⟩
    (GoType.prim "string") Strictness.Strict LoopState.init

theorem foldl_disperseInput {α : Type} (inputs : List α) (acc : List (List α)) :
    inputs.foldl disperseInput acc = acc.map (fun ch => ch ++ inputs) := by
  induction inputs generalizing acc with
  | nil => simp
  | cons x xs ih =>
    rw [List.foldl_cons, ih, disperseInput, List.map_map]
    apply List.map_congr_left
    intro ch _
    simp

theorem length_flatten_replicate {α : Type} (k : Nat) (l : List α) :
    (List.flatten (List.replicate k l)).length = k * l.length := by
  induction k with
  | zero => simp
  | succ k ih =>
    rw [List.replicate_succ, List.flatten_cons, List.length_append, ih,
      Nat.succ_mul, Nat.add_comm]

/-- C4: every input delivered to a MultiChain is written to every sibling's
input channel — each of the k siblings receives the identical input stream in
submission order — and the collector merges sibling outputs sequentially in
declaration order; hence with k identity-link siblings an input stream of
length n yields exactly k·n outputs, and (the identity links producing no
errors) the chain error slot stays empty after the run. -/
theorem multichain_fanout {α : Type} (k : Nat) (inputs : List α) :
    startDisperser k inputs = List.replicate k inputs
    ∧ (collectOutput (startDisperser k inputs)).length = k * inputs.length
    ∧ ∀ s : Strictness,
        (processLoop s (inputs.map (fun _ => (none : Option ErrKind)))).chainErr = none := by
  have hdisp : startDisperser k inputs = List.replicate k inputs := by
    rw [startDisperser, foldl_disperseInput, List.map_replicate, List.nil_append]
  refine ⟨hdisp, ?_, ?_⟩
  · rw [hdisp, collectOutput, length_flatten_replicate]
  · intro s
    by_contra hcontra
    rw [← ne_eq, processLoop_inv] at hcontra
    obtain ⟨r, hr, hbr⟩ := hcontra
    rw [List.mem_map] at hr
    obtain ⟨_, _, hrn⟩ := hr
    rw [← hrn] at hbr
    exact Bool.false_ne_true hbr

theorem constrHandleError_ne_none (c : ConstrState) (e : String) :
    (constrHandleError c e).err ≠ none := by
  rw [constrHandleError]
  cases c.err <;> simp

theorem claimStep_err_mono (acc : ConstrState × List LinkState) (l : LinkState)
    (h : acc.1.err ≠ none) : (claimStep acc l).1.err ≠ none := by
  rw [claimStep]
  obtain ⟨e0, he0⟩ := Option.ne_none_iff_exists'.mp h
  cases hcl : l.claimed <;> cases herr : l.err <;>
    simp [constrHandleError, he0]

theorem foldl_claimStep_err_mono (links : List LinkState)
    (acc : ConstrState × List LinkState) (h : acc.1.err ≠ none) :
    (links.foldl claimStep acc).1.err ≠ none := by
  induction links generalizing acc with
  | nil => exact h
  | cons l rest ih => exact ih _ (claimStep_err_mono acc l h)

/-- C8: links are single-use. A chain constructed from unclaimed, error-free
links ends construction with an empty error slot and every handed-in link
claimed; constructing any further chain from a link list that contains an
already-claimed link leaves that chain's `Error()` non-nil (the "link in use"
report wins the first-error slot). -/
theorem single_use_links (links1 links2 : List LinkState)
    (h1 : ∀ l ∈ links1, l.claimed = false ∧ l.err = none)
    (h2 : ∃ l ∈ links2, l.claimed = true) :
    ((NewChain links1).1.err = none ∧ ∀ l' ∈ (NewChain links1).2, l'.claimed = true)
    ∧ (NewChain links2).1.err ≠ none := by
  constructor
  · have key : ∀ (ls : List LinkState) (acc : ConstrState × List LinkState),
        (∀ l ∈ ls, l.claimed = false ∧ l.err = none) →
        acc.1.err = none → (∀ l' ∈ acc.2, l'.claimed = true) →
        ((ls.foldl claimStep acc).1.err = none
          ∧ ∀ l' ∈ (ls.foldl claimStep acc).2, l'.claimed = true) := by
      intro ls
      induction ls with
      | nil => intro acc _ hacc hcl; exact ⟨hacc, hcl⟩
      | cons l rest ih =>
        intro acc hls hacc hcl
        obtain ⟨hlc, hle⟩ := hls l (List.mem_cons_self l rest)
        have hstep : claimStep acc l = (acc.1, acc.2 ++ [{ l with claimed := true }]) := by
          simp [claimStep, hlc, hle]
        rw [List.foldl_cons, hstep]
        refine ih _ (fun l' hl' => hls l' (List.mem_cons_of_mem _ hl')) hacc ?_
        intro l' hl'
        rcases List.mem_append.mp hl' with hmem | hmem
        · exact hcl l' hmem
        · rw [List.mem_singleton.mp hmem]
    exact key links1 (⟨none, false⟩, []) h1 rfl (fun _ h => absurd h (List.not_mem_nil _))
  · obtain ⟨l, hmem, hlc⟩ := h2
    have key : ∀ (ls : List LinkState) (acc : ConstrState × List LinkState),
        (∃ l ∈ ls, l.claimed = true) ∨ acc.1.err ≠ none →
        (ls.foldl claimStep acc).1.err ≠ none := by
      intro ls
      induction ls with
      | nil =>
        intro acc h
        rcases h with ⟨_, hmem', _⟩ | herr
        · exact absurd hmem' (List.not_mem_nil _)
        · exact herr
      | cons x rest ih =>
        intro acc h
        rw [List.foldl_cons]
        rcases h with ⟨y, hmem', hyc⟩ | herr
        · rcases List.mem_cons.mp hmem' with heq | hmem''
          · subst heq
            apply ih
            right
            rw [claimStep, hyc]
            cases herr2 : ({ y with claimed := true } : LinkState).err with
            | none => exact constrHandleError_ne_none _ _
            | some e => exact constrHandleError_ne_none _ _
          · exact ih _ (Or.inl ⟨y, hmem'', hyc⟩)
        · exact ih _ (Or.inr (claimStep_err_mono acc x herr))
    exact key links2 (⟨none, false⟩, []) (Or.inl ⟨l, hmem, hlc⟩)

/-- C8 witness: an unclaimed link is claimed by its first chain without error;
a second chain built from the now-claimed link ends with a non-nil error. -/
theorem single_use_links_witness :
    (((NewChain [⟨false, none⟩]).1.err = none
        ∧ ∀ l' ∈ (NewChain [⟨false, none⟩]).2, l'.claimed = true)
      ∧ (NewChain [⟨true, none⟩]).1.err ≠ none) :=
  single_use_links [⟨false, none⟩] [⟨true, none⟩]
    (fun l hl => by
      rw [List.mem_singleton.mp hl]
      exact ⟨rfl, rfl⟩)
    ⟨⟨true, none⟩, List.mem_singleton_self _, rfl⟩

/-- C10 counterexample: on a fresh chain, Close then Send stores
"chain is closed", but the claim's assertion that every *subsequent* Send
fails with "chain is in error state" is false — the second Send again returns
"chain is closed" (the `isClosed` check precedes the error-slot check). -/
theorem send_after_close_counterexample :
    ((ChainRt.fresh.close.send.1).send).2 = some "chain is closed"
    ∧ ((ChainRt.fresh.close.send.1).send).2
        ≠ some ("chain is in error state: " ++ "chain is closed") := by
  refine ⟨rfl, ?_⟩
  intro hcontra
  rw [show ((ChainRt.fresh.close.send.1).send).2 = some "chain is closed" from rfl] at hcontra
  have : "chain is closed" = "chain is in error state: " ++ "chain is closed" :=
    Option.some_injective _ hcontra
  exact absurd this (by decide)

/-- C10 (amended): Send on a closed chain stores "chain is closed" through the
first-error-wins slot, so `Error()` is non-nil afterwards and the stored error
masks any later link error; every subsequent Send fails again with
"chain is closed" (not "chain is in error state"), because the closed check
precedes the error-state check, and the slot keeps the first error. -/
theorem send_after_close_stores_error (c : ChainRt) (h : c.err = none) :
    ((c.close).send).2 = some "chain is closed"
    ∧ ((c.close).send).1.err = some "chain is closed"
    ∧ (((c.close).send).1.send).2 = some "chain is closed"
    ∧ (((c.close).send).1.send).1.err = some "chain is closed"
    ∧ ∀ e, (chainHandleError ((c.close).send).1 e).err = some "chain is closed" := by
  have hstate : (c.close).send
      = (chainHandleError c.close "chain is closed", some "chain is closed") := by
    simp [ChainRt.close, ChainRt.send]
  have herr1 : (chainHandleError c.close "chain is closed").err = some "chain is closed" := by
    simp [chainHandleError, ChainRt.close, h]
  have hclosed : (chainHandleError c.close "chain is closed").isClosed = true := by
    simp [chainHandleError, ChainRt.close]
  have hsend2 : (chainHandleError c.close "chain is closed").send
      = (chainHandleError (chainHandleError c.close "chain is closed") "chain is closed",
         some "chain is closed") := by
    simp [ChainRt.send, hclosed]
  have herr2 : ∀ e, (chainHandleError (chainHandleError c.close "chain is closed") e).err
      = some "chain is closed" := by
    intro e
    simp [chainHandleError, ChainRt.close, h]
  refine ⟨by rw [hstate], by rw [hstate]; exact herr1, ?_, ?_, ?_⟩
  · rw [hstate, hsend2]
  · rw [hstate, hsend2]
    exact herr2 _
  · intro e
    rw [hstate]
    exact herr2 e

/-- C10 witness: the amended behaviour evaluated on a fresh chain. -/
theorem send_after_close_stores_error_witness :
    ((ChainRt.fresh.close).send).2 = some "chain is closed"
    ∧ ((ChainRt.fresh.close).send).1.err = some "chain is closed"
    ∧ (((ChainRt.fresh.close).send).1.send).2 = some "chain is closed"
    ∧ (((ChainRt.fresh.close).send).1.send).1.err = some "chain is closed"
    ∧ ∀ e, (chainHandleError ((ChainRt.fresh.close).send).1 e).err
        = some "chain is closed" :=
  send_after_close_stores_error ChainRt.fresh rfl

theorem alookup_ainsert_self {α : Type} (l : List (String × α)) (k : String) (v : α) :
    alookup (ainsert l k v) k = some v := by
  induction l with
  | nil => simp [ainsert, alookup]
  | cons kv rest ih =>
    obtain ⟨k', v'⟩ := kv
    by_cases hk : k' = k
    · simp [ainsert, hk, alookup]
    · simp [ainsert, hk, alookup, ih]

theorem alookup_ainsert_ne {α : Type} (l : List (String × α)) (k k' : String) (v : α)
    (h : k ≠ k') : alookup (ainsert l k v) k' = alookup l k' := by
  induction l with
  | nil => simp [ainsert, alookup, h]
  | cons kv rest ih =>
    obtain ⟨k0, v0⟩ := kv
    by_cases hk : k0 = k
    · subst hk
      simp [ainsert, alookup, h]
    · simp only [ainsert, hk, if_false]
      rw [alookup, alookup, ih]

theorem aerase_ainsert_of_absent {α : Type} (l : List (String × α)) (k : String) (v : α)
    (h : alookup l k = none) : aerase (ainsert l k v) k = l := by
  induction l with
  | nil => simp [ainsert, aerase]
  | cons kv rest ih =>
    obtain ⟨k', v'⟩ := kv
    by_cases hk : k' = k
    · rw [alookup, if_pos hk] at h
      exact absurd h (by simp)
    · rw [alookup, if_neg hk] at h
      simp [ainsert, hk, aerase, ih h]

theorem mem_ainsert_self {α : Type} (l : List (String × α)) (k : String) (v : α) :
    (k, v) ∈ ainsert l k v := by
  induction l with
  | nil => simp [ainsert]
  | cons kv rest ih =>
    obtain ⟨k', v'⟩ := kv
    by_cases hk : k' = k
    · simp [ainsert, hk]
    · simp only [ainsert, hk, if_false]
      exact List.mem_cons_of_mem _ ih

theorem Param.setValueDirectly_ok (p : Param) (v : PVal) (p' : Param)
    (h : p.setValueDirectly v = Except.ok p') :
    p'.name = p.name ∧ p'.flag = p.flag ∧ p'.hasValue = true ∧ p'.hasBeenSet = true := by
  rw [Param.setValueDirectly] at h
  by_cases ht : v.tyName = p.ptype
  · rw [if_pos ht] at h
    injection h with h
    subst h
    exact ⟨rfl, by simp [Param.flag], rfl, rfl⟩
  · rw [if_neg ht] at h
    exact absurd h (by simp)

theorem Param.SetValue_ok (p : Param) (v : PVal) (p' : Param)
    (h : p.SetValue v = Except.ok p') :
    p'.name = p.name ∧ p'.flag = p.flag ∧ p'.hasValue = true ∧ p'.hasBeenSet = true := by
  cases v with
  | str s =>
    rw [Param.SetValue] at h
    cases hc : p.convertFromCLIString s with
    | error e =>
      rw [hc] at h
      exact absurd h (by simp)
    | ok conv =>
      rw [hc] at h
      exact Param.setValueDirectly_ok p conv p' h
  | int n => exact Param.setValueDirectly_ok p _ p' h
  | boolV b => exact Param.setValueDirectly_ok p _ p' h
  | strList l => exact Param.setValueDirectly_ok p _ p' h
  | intList l => exact Param.setValueDirectly_ok p _ p' h
  | boolList l => exact Param.setValueDirectly_ok p _ p' h
  | other tag => exact Param.setValueDirectly_ok p _ p' h

/-- C6: an argument set before its parameter is declared is stored as a
pending argument; when a parameter whose name or flag matches is later
declared (no collision, valid shortcode, coercible value), the pending value
is bound through the parameter's coercion and removed from pending, after
which `Arg` returns the bound value and `Args` includes it. -/
theorem pending_arg_autobind (ph : ParamHolder) (n : String) (v : PVal) (p p' : Param)
    (hundecl : ph.getParamByFlag n = none)
    (hmatch : p.name = n ∨ p.flag = n)
    (hnopend : alookup ph.pending p.name = none ∧ alookup ph.pending p.flag = none)
    (hnocoll : ph.getParam p.name = none)
    (hsc : p.shortcodeOk = true)
    (hsv : p.SetValue v = Except.ok p') :
    ∃ ph1, ph.SetArg n v = Except.ok ph1
      ∧ alookup ph1.pending n = some (newPendingArg n v)
      ∧ ∃ ph2, ph1.SetParam p = Except.ok ph2
        ∧ alookup ph2.pending n = none
        ∧ ph2.Arg p.name = some p'.value
        ∧ (p.name, p'.value) ∈ ph2.Args := by
  obtain ⟨hname, hflag, hhasval, _⟩ := Param.SetValue_ok p v p' hsv
  have hpendn : alookup ph.pending n = none := by
    rcases hmatch with hmn | hmf
    · exact hmn ▸ hnopend.1
    · exact hmf ▸ hnopend.2
  -- Step 1: SetArg stores a pending argument (the name is undeclared).
  have h1 : ph.SetArg n v
      = Except.ok { ph with pending := ainsert ph.pending n (newPendingArg n v) } := by
    rw [ParamHolder.SetArg, ParamHolder.setArg]
    have hby : ph.getParamByFlag (newPendingArg n v).name = none := hundecl
    rw [hby]
    rfl
  refine ⟨_, h1, alookup_ainsert_self _ _ _, ?_⟩
  -- Step 2: SetParam drains the pending value.
  have hpend1 : ParamHolder.getPendingValue
      { ph with pending := ainsert ph.pending n (newPendingArg n v) } p = some v := by
    have hval : (newPendingArg n v).value = v := rfl
    by_cases hn : p.name = n
    · simp [ParamHolder.getPendingValue, hn, alookup_ainsert_self, hval]
    · have hfn : p.flag = n := by
        rcases hmatch with hmn | hmf
        · exact absurd hmn hn
        · exact hmf
      have hlookname : alookup (ainsert ph.pending n (newPendingArg n v)) p.name = none := by
        rw [alookup_ainsert_ne ph.pending n p.name (newPendingArg n v)
          (fun hcontra => hn hcontra.symm), hnopend.1]
      simp [ParamHolder.getPendingValue, hlookname, hfn, alookup_ainsert_self, hval]
  have hdel : ParamHolder.deletePendingValue
      { ph with pending := ainsert ph.pending n (newPendingArg n v) } p'
      = { ph with pending := ph.pending } := by
    by_cases hn : p.name = n
    · have hlook : alookup (ainsert ph.pending n (newPendingArg n v)) p'.name
          = some (newPendingArg n v) := by
        rw [hname, hn, alookup_ainsert_self]
      have herase : aerase (ainsert ph.pending n (newPendingArg n v)) p'.name = ph.pending := by
        rw [hname, hn, aerase_ainsert_of_absent _ _ _ hpendn]
      simp [ParamHolder.deletePendingValue, hlook, herase]
    · have hfn : p.flag = n := by
        rcases hmatch with hmn | hmf
        · exact absurd hmn hn
        · exact hmf
      have hlook : alookup (ainsert ph.pending n (newPendingArg n v)) p'.name = none := by
        rw [hname,
          alookup_ainsert_ne ph.pending n p.name (newPendingArg n v)
            (fun hcontra => hn hcontra.symm),
          hnopend.1]
      have hlookf : alookup (ainsert ph.pending n (newPendingArg n v)) p'.flag
          = some (newPendingArg n v) := by
        rw [hflag, hfn, alookup_ainsert_self]
      have herase : aerase (ainsert ph.pending n (newPendingArg n v)) p'.flag = ph.pending := by
        rw [hflag, hfn, aerase_ainsert_of_absent _ _ _ hpendn]
      simp [ParamHolder.deletePendingValue, hlook, hlookf, herase]
  have h2 : ParamHolder.SetParam
      { ph with pending := ainsert ph.pending n (newPendingArg n v) } p
      = Except.ok { ph with params := ainsert ph.params p'.name p' } := by
    have hgp : ParamHolder.getParam
        { ph with pending := ainsert ph.pending n (newPendingArg n v) } p.name = none :=
      hnocoll
    simp [ParamHolder.SetParam, hgp, hsc, hpend1, hsv, hdel]
  refine ⟨_, h2, ?_, ?_, ?_⟩
  · -- the pending entry is gone
    exact hpendn
  · -- Arg returns the bound value
    rw [ParamHolder.Arg]
    have : ParamHolder.getParam { ph with params := ainsert ph.params p'.name p' } p.name
        = some p' := by
      rw [ParamHolder.getParam]
      show alookup (ainsert ph.params p'.name p') p.name = some p'
      rw [hname, alookup_ainsert_self]
    rw [this]
  · -- Args includes it
    rw [ParamHolder.Args]
    rw [List.mem_filterMap]
    refine ⟨(p'.name, p'), ?_, ?_⟩
    · exact mem_ainsert_self _ _ _
    · simp [hhasval, hname]

/-- C6 witness: on an empty registry, SetArg "outfile" before the declaration
pends the value; declaring the parameter binds it. -/
theorem pending_arg_autobind_witness :
    ∃ ph1, ParamHolder.new.SetArg "outfile" (PVal.str "out.json") = Except.ok ph1
      ∧ alookup ph1.pending "outfile" = some (newPendingArg "outfile" (PVal.str "out.json"))
      ∧ ∃ ph2, ph1.SetParam outfileParam = Except.ok ph2
        ∧ alookup ph2.pending "outfile" = none
        ∧ ph2.Arg outfileParam.name = some outfileParamSet.value
        ∧ (outfileParam.name, outfileParamSet.value) ∈ ph2.Args :=
  pending_arg_autobind ParamHolder.new "outfile" (PVal.str "out.json")
    outfileParam outfileParamSet rfl (Or.inl rfl) ⟨rfl, rfl⟩ rfl rfl rfl

theorem WFP_ainsert (l : List (String × Param)) (k : String) (p : Param)
    (h : WFP l) (hp : p.name = k) : WFP (ainsert l k p) := by
  intro k' q hq
  by_cases hk : k = k'
  · subst hk
    rw [alookup_ainsert_self] at hq
    injection hq with hq
    rw [← hq]
    exact hp
  · rw [alookup_ainsert_ne _ _ _ _ hk] at hq
    exact h k' q hq

/-- Unfolding of `SetArg` at a declared name: the name lookup hits, so the
value is coerced into that parameter and stored back under its name. -/
theorem SetArg_declared (ph : ParamHolder) (k : String) (v : PVal) (q : Param)
    (hq : alookup ph.params k = some q) :
    ph.SetArg k v =
      match q.SetValue v with
      | Except.error e => Except.error e
      | Except.ok q' => Except.ok { ph with params := ainsert ph.params q'.name q' } := by
  rw [ParamHolder.SetArg, ParamHolder.setArg]
  have hby : ph.getParamByFlag (newPendingArg k v).name = some q := by
    rw [ParamHolder.getParamByFlag]
    have hgp : ph.getParam (newPendingArg k v).name = some q := hq
    rw [hgp]
  rw [hby]
  rfl

/-- A fold of `setArgs` never touches a key outside the argument list, and
keeps the params table well-formed. -/
theorem setArgs_untouched (args : List (String × PVal)) (ph ph' : ParamHolder)
    (hwf : WFP ph.params) (h : setArgs ph args = Except.ok ph')
    (key : String) (hkey : key ∉ args.map Prod.fst) :
    alookup ph'.params key = alookup ph.params key ∧ WFP ph'.params := by
  induction args generalizing ph with
  | nil =>
    rw [setArgs] at h
    injection h with h
    subst h
    exact ⟨rfl, hwf⟩
  | cons kv rest ih =>
    obtain ⟨k, v⟩ := kv
    rw [List.map_cons, List.mem_cons, not_or] at hkey
    obtain ⟨hkne, hkrest⟩ := hkey
    rw [setArgs] at h
    by_cases hcond : (ph.HasParam k && !ph.WasSet k) = true
    · rw [if_pos hcond] at h
      have hhp : ph.HasParam k = true := (Bool.and_eq_true _ _ |>.mp hcond).1
      rw [ParamHolder.HasParam, Option.isSome_iff_exists] at hhp
      obtain ⟨q, hq⟩ := hhp
      rw [SetArg_declared ph k v q hq] at h
      cases hsv : q.SetValue v with
      | error e =>
        rw [hsv] at h
        exact absurd h (by simp)
      | ok q' =>
        rw [hsv] at h
        have hqname : q.name = k := hwf k q hq
        have hq'name : q'.name = k := by
          rw [(Param.SetValue_ok q v q' hsv).1, hqname]
        have hwf1 : WFP (ainsert ph.params q'.name q') :=
          WFP_ainsert ph.params q'.name q' hwf rfl
        obtain ⟨ha, hb⟩ := ih _ hwf1 h hkrest
        refine ⟨?_, hb⟩
        rw [ha]
        show alookup (ainsert ph.params q'.name q') key = alookup ph.params key
        rw [alookup_ainsert_ne _ _ _ _ (by rw [hq'name]; exact fun hc => hkne hc.symm)]
    · rw [if_neg hcond] at h
      exact ih ph hwf h hkrest

/-- A link parameter that was explicitly set survives the whole propagation
fold untouched. -/
theorem setArgs_preserves_set (args : List (String × PVal)) (ph ph' : ParamHolder)
    (hwf : WFP ph.params) (h : setArgs ph args = Except.ok ph')
    (pname : String) (p : Param)
    (hp : alookup ph.params pname = some p) (hset : p.hasBeenSet = true) :
    alookup ph'.params pname = some p := by
  induction args generalizing ph with
  | nil =>
    rw [setArgs] at h
    injection h with h
    subst h
    exact hp
  | cons kv rest ih =>
    obtain ⟨k, v⟩ := kv
    rw [setArgs] at h
    by_cases hcond : (ph.HasParam k && !ph.WasSet k) = true
    · rw [if_pos hcond] at h
      obtain ⟨hhp, hws⟩ := Bool.and_eq_true _ _ |>.mp hcond
      have hkne : k ≠ pname := by
        intro hceq
        subst hceq
        have hwsk : ph.WasSet k = p.hasBeenSet := by
          simp [ParamHolder.WasSet, ParamHolder.getParam, hp]
        rw [Bool.not_eq_true', hwsk] at hws
        rw [hws] at hset
        exact Bool.false_ne_true hset
      rw [ParamHolder.HasParam, Option.isSome_iff_exists] at hhp
      obtain ⟨q, hq⟩ := hhp
      rw [SetArg_declared ph k v q hq] at h
      cases hsv : q.SetValue v with
      | error e =>
        rw [hsv] at h
        exact absurd h (by simp)
      | ok q' =>
        rw [hsv] at h
        have hq'name : q'.name = k := by
          rw [(Param.SetValue_ok q v q' hsv).1, hwf k q hq]
        refine ih _ (WFP_ainsert ph.params q'.name q' hwf rfl) h ?_
        show alookup (ainsert ph.params q'.name q') pname = some p
        rw [alookup_ainsert_ne _ _ _ _ (by rw [hq'name]; exact hkne), hp]
    · rw [if_neg hcond] at h
      exact ih ph hwf h hp

/-- C5: when a chain starts, for every contained link and every chain-level
bound argument whose name matches a parameter the link declares, the chain's
value is copied into the link (through the parameter's coercion) only when
the link does not already hold an explicitly set value; a parameter the link
was created with (hasBeenSet) is left unchanged by the propagation. -/
theorem chain_arg_propagation (args : List (String × PVal)) (ph ph' : ParamHolder)
    (hwf : WFP ph.params) (hnodup : (args.map Prod.fst).Nodup)
    (h : setArgs ph args = Except.ok ph') :
    (∀ pname p, alookup ph.params pname = some p → p.hasBeenSet = true →
      alookup ph'.params pname = some p)
    ∧ (∀ k v p p', (k, v) ∈ args → alookup ph.params k = some p →
      p.hasBeenSet = false → p.SetValue v = Except.ok p' →
      alookup ph'.params k = some p') := by
  refine ⟨fun pname p hp hset => setArgs_preserves_set args ph ph' hwf h pname p hp hset, ?_⟩
  intro k v p p' hmem hp hnot hsv
  induction args generalizing ph with
  | nil => exact absurd hmem (List.not_mem_nil _)
  | cons kv rest ih =>
    obtain ⟨k1, v1⟩ := kv
    rw [List.map_cons, List.nodup_cons] at hnodup
    obtain ⟨hk1out, hnodup'⟩ := hnodup
    rw [setArgs] at h
    rcases List.mem_cons.mp hmem with heq | hmemrest
    · injection heq with hk hv
      subst hk
      subst hv
      have hcond : (ph.HasParam k && !ph.WasSet k) = true := by
        rw [Bool.and_eq_true]
        constructor
        · simp [ParamHolder.HasParam, ParamHolder.getParam, hp]
        · have hwsk : ph.WasSet k = p.hasBeenSet := by
            simp [ParamHolder.WasSet, ParamHolder.getParam, hp]
          rw [Bool.not_eq_true', hwsk]
          exact hnot
      rw [if_pos hcond, SetArg_declared ph k v p hp, hsv] at h
      have hpname : p.name = k := hwf k p hp
      have hp'name : p'.name = k := by
        rw [(Param.SetValue_ok p v p' hsv).1, hpname]
      have hwf1 : WFP (ainsert ph.params p'.name p') :=
        WFP_ainsert ph.params p'.name p' hwf rfl
      have huntouched := setArgs_untouched rest _ ph' hwf1 h k hk1out
      rw [huntouched.1]
      show alookup (ainsert ph.params p'.name p') k = some p'
      rw [hp'name, alookup_ainsert_self]
    · have hkrest : k ∈ rest.map Prod.fst :=
        List.mem_map.mpr ⟨(k, v), hmemrest, rfl⟩
      have hk1ne : k1 ≠ k := fun hc => hk1out (hc ▸ hkrest)
      by_cases hcond : (ph.HasParam k1 && !ph.WasSet k1) = true
      · rw [if_pos hcond] at h
        obtain ⟨hhp, _⟩ := Bool.and_eq_true _ _ |>.mp hcond
        rw [ParamHolder.HasParam, Option.isSome_iff_exists] at hhp
        obtain ⟨q, hq⟩ := hhp
        rw [SetArg_declared ph k1 v1 q hq] at h
        cases hsv1 : q.SetValue v1 with
        | error e =>
          rw [hsv1] at h
          exact absurd h (by simp)
        | ok q' =>
          rw [hsv1] at h
          have hq'name : q'.name = k1 := by
            rw [(Param.SetValue_ok q v1 q' hsv1).1, hwf k1 q hq]
          have hp1 : alookup (ainsert ph.params q'.name q') k = some p := by
            rw [alookup_ainsert_ne _ _ _ _ (by rw [hq'name]; exact hk1ne), hp]
          exact ih _ (WFP_ainsert ph.params q'.name q' hwf rfl) hnodup' h hmemrest hp1
      · rw [if_neg hcond] at h
        exact ih ph hwf hnodup' h hmemrest hp

/-- C5 witness: propagating chain args {argument ↦ "456", profile ↦
"test-profile"} leaves the explicitly-set "argument" at "123" and copies
"profile". -/
theorem chain_arg_propagation_witness :
    alookup c5Result.params "argument" = some c5ArgParam
    ∧ alookup c5Result.params "profile" = some c5ProfileSet := by
  have hrun : setArgs c5Link
      [("argument", PVal.str "456"), ("profile", PVal.str "test-profile")]
      = Except.ok c5Result := rfl
  have hwf : WFP c5Link.params := by
    intro k p hp
    simp only [c5Link] at hp
    rw [alookup] at hp
    by_cases h1 : "argument" = k
    · rw [if_pos h1] at hp
      injection hp with hp
      rw [← hp]
      exact h1
    · rw [if_neg h1] at hp
      rw [alookup] at hp
      by_cases h2 : "profile" = k
      · rw [if_pos h2] at hp
        injection hp with hp
        rw [← hp]
        exact h2
      · rw [if_neg h2] at hp
        rw [alookup] at hp
        exact absurd hp (by simp)
  have hnodup : (List.map Prod.fst
      [("argument", PVal.str "456"), ("profile", PVal.str "test-profile")]).Nodup := by
    decide
  have hres := chain_arg_propagation
    [("argument", PVal.str "456"), ("profile", PVal.str "test-profile")] c5Link c5Result
    hwf hnodup hrun
  constructor
  · exact hres.1 "argument" c5ArgParam rfl rfl
  · exact hres.2 "profile" (PVal.str "test-profile") c5ProfileParam c5ProfileSet
      (by simp) rfl rfl rfl

theorem hasDashPrefix_mkFlagToken (f : String) :
    hasDashPrefix (mkFlagToken f) = true := rfl

theorem dropWhile_dash_of_flagname (f : String) (h : hasDashPrefix f = false) :
    f.data.dropWhile (fun c => c = '-') = f.data := by
  cases hf : f.data with
  | nil => rfl
  | cons c cs =>
    have hc : ¬ c = '-' := by
      rw [hasDashPrefix, hf] at h
      simpa using h
    rw [List.dropWhile_cons]
    simp [hc]

theorem trimDashes_mkFlagToken (f : String) (h : hasDashPrefix f = false) :
    trimDashes (mkFlagToken f) = f := by
  have hd : ('-' :: f.data).dropWhile (fun c => c = '-')
      = f.data.dropWhile (fun c => c = '-') := rfl
  rw [trimDashes]
  show (⟨('-' :: f.data).dropWhile (fun c => c = '-')⟩ : String) = f
  rw [hd, dropWhile_dash_of_flagname f h]

theorem ainsert_lookup_self {α : Type} (l : List (String × α)) (k : String) (v : α)
    (h : alookup l k = some v) : ainsert l k v = l := by
  induction l with
  | nil => exact absurd h (by simp [alookup])
  | cons kv rest ih =>
    obtain ⟨k', v'⟩ := kv
    by_cases hk : k' = k
    · rw [alookup, if_pos hk] at h
      injection h with h
      simp [ainsert, hk, h]
    · rw [alookup, if_neg hk] at h
      simp [ainsert, hk, ih h]

theorem ainsert_ainsert_self {α : Type} (l : List (String × α)) (k : String) (a b : α) :
    ainsert (ainsert l k a) k b = ainsert l k b := by
  induction l with
  | nil => simp [ainsert]
  | cons kv rest ih =>
    obtain ⟨k', v'⟩ := kv
    by_cases hk : k' = k
    · simp [ainsert, hk]
    · simp [ainsert, hk, ih]

theorem ainsert_append_absent {α : Type} (l : List (String × α)) (k : String) (v : α)
    (h : alookup l k = none) : ainsert l k v = l ++ [(k, v)] := by
  induction l with
  | nil => rfl
  | cons kv rest ih =>
    obtain ⟨k', v'⟩ := kv
    by_cases hk : k' = k
    · rw [alookup, if_pos hk] at h
      exact absurd h (by simp)
    · rw [alookup, if_neg hk] at h
      simp [ainsert, hk, ih h]

theorem alookup_append_none {α : Type} (l1 l2 : List (String × α)) (k : String)
    (h : alookup l1 k = none) : alookup (l1 ++ l2) k = alookup l2 k := by
  induction l1 with
  | nil => rfl
  | cons kv rest ih =>
    obtain ⟨k', v'⟩ := kv
    by_cases hk : k' = k
    · rw [alookup, if_pos hk] at h
      exact absurd h (by simp)
    · rw [alookup, if_neg hk] at h
      rw [List.cons_append, alookup, if_neg hk]
      exact ih h

/-- Scanning the value tokens of the current flag accumulates them, in order,
under that flag. -/
theorem parseCLITokens_values (vs : List String) (rest' : List String)
    (acc : List (String × List String)) (f : String) (cur : List String)
    (hvs : ∀ v ∈ vs, hasDashPrefix v = false)
    (hacc : alookup acc f = some cur) :
    parseCLITokens (vs ++ rest') acc f
      = parseCLITokens rest' (ainsert acc f (cur ++ vs)) f := by
  induction vs generalizing acc cur with
  | nil =>
    rw [List.nil_append, List.append_nil, ainsert_lookup_self _ _ _ hacc]
  | cons v vs' ih =>
    have hv : hasDashPrefix v = false := hvs v (List.mem_cons_self _ _)
    rw [List.cons_append, parseCLITokens, if_neg (by rw [hv]; exact Bool.false_ne_true), hacc]
    show parseCLITokens (vs' ++ rest') (ainsert acc f (cur ++ [v])) f
        = parseCLITokens rest' (ainsert acc f (cur ++ v :: vs')) f
    rw [ih (ainsert acc f (cur ++ [v])) (cur ++ [v])
      (fun v' hv' => hvs v' (List.mem_cons_of_mem _ hv')) (alookup_ainsert_self _ _ _)]
    rw [ainsert_ainsert_self]
    have hap : (cur ++ [v]) ++ vs' = cur ++ (v :: vs') := by simp
    rw [hap]

/-- Scanning a well-formed group list inserts every group, in order. -/
theorem parseCLITokens_groups : ∀ (groups : List (String × List String))
    (acc : List (String × List String)) (cf : String),
    (∀ g ∈ groups, hasDashPrefix g.1 = false) →
    (∀ g ∈ groups, ∀ v ∈ g.2, hasDashPrefix v = false) →
    parseCLITokens (flattenGroups groups) acc cf
      = Except.ok (groups.foldl (fun a g => ainsert a g.1 g.2) acc) := by
  intro groups
  induction groups with
  | nil =>
    intro acc cf _ _
    rfl
  | cons g rest ih =>
    intro acc cf hflags hvals
    obtain ⟨f, vs⟩ := g
    have hf : hasDashPrefix f = false := hflags (f, vs) (List.mem_cons_self _ _)
    have hflat : flattenGroups ((f, vs) :: rest)
        = mkFlagToken f :: (vs ++ flattenGroups rest) := by
      simp [flattenGroups]
    rw [hflat, parseCLITokens,
      if_pos (by rw [hasDashPrefix_mkFlagToken]),
      trimDashes_mkFlagToken f hf]
    rw [parseCLITokens_values vs _ _ f []
      (fun v hv => hvals (f, vs) (List.mem_cons_self _ _) v hv)
      (alookup_ainsert_self _ _ _)]
    rw [List.nil_append, ainsert_ainsert_self]
    rw [ih (ainsert acc f vs) f
      (fun g' hg' => hflags g' (List.mem_cons_of_mem _ hg'))
      (fun g' hg' => hvals g' (List.mem_cons_of_mem _ hg'))]
    rw [List.foldl_cons]

/-- With nothing declared, binding the parsed groups pends each flag with the
comma-joined value string. -/
theorem bindParsed_no_params (pend : List (String × PendingArg))
    (groups : List (String × List String)) :
    bindParsed ⟨[], pend⟩ groups
      = Except.ok ⟨[], groups.foldl
          (fun a g =>
            ainsert a g.1 ⟨g.1, g.1, true, PVal.str (String.intercalate "," g.2)⟩)
          pend⟩ := by
  induction groups generalizing pend with
  | nil => rfl
  | cons g rest ih =>
    obtain ⟨f, vs⟩ := g
    calc bindParsed ⟨[], pend⟩ ((f, vs) :: rest)
        = bindParsed
            ⟨[], ainsert pend f ⟨f, f, true, PVal.str (String.intercalate "," vs)⟩⟩
            rest := rfl
      _ = _ := ih _

theorem alookup_foldl_ainsert_untouched {α β : Type} (F : String × β → α)
    (rest : List (String × β)) (acc : List (String × α)) (key : String)
    (hkey : key ∉ rest.map Prod.fst) :
    alookup (rest.foldl (fun a g => ainsert a g.1 (F g)) acc) key = alookup acc key := by
  induction rest generalizing acc with
  | nil => rfl
  | cons g rest' ih =>
    rw [List.map_cons, List.mem_cons, not_or] at hkey
    rw [List.foldl_cons, ih _ hkey.2, alookup_ainsert_ne _ _ _ _ (fun hc => hkey.1 hc.symm)]

theorem alookup_foldl_ainsert {α β : Type} (F : String × β → α) :
    ∀ (groups : List (String × β)) (acc : List (String × α)) (g : String × β),
    g ∈ groups → (groups.map Prod.fst).Nodup →
    alookup (groups.foldl (fun a g' => ainsert a g'.1 (F g')) acc) g.1 = some (F g) := by
  intro groups
  induction groups with
  | nil =>
    intro acc g hmem _
    exact absurd hmem (List.not_mem_nil _)
  | cons g0 rest ih =>
    intro acc g hmem hnodup
    rw [List.map_cons, List.nodup_cons] at hnodup
    rw [List.foldl_cons]
    rcases List.mem_cons.mp hmem with heq | hmem'
    · subst heq
      rw [alookup_foldl_ainsert_untouched F rest _ g.1 hnodup.1, alookup_ainsert_self]
    · exact ih _ g hmem' hnodup.2

theorem foldl_ainsert_append {α : Type} : ∀ (groups : List (String × α))
    (acc : List (String × α)),
    (∀ g ∈ groups, alookup acc g.1 = none) →
    (groups.map Prod.fst).Nodup →
    groups.foldl (fun a g => ainsert a g.1 g.2) acc = acc ++ groups := by
  intro groups
  induction groups with
  | nil =>
    intro acc _ _
    simp
  | cons g rest ih =>
    intro acc hdisj hnodup
    rw [List.map_cons, List.nodup_cons] at hnodup
    rw [List.foldl_cons, ainsert_append_absent _ _ _ (hdisj g (List.mem_cons_self _ _))]
    have hdisj2 : ∀ g' ∈ rest, alookup (acc ++ [g]) g'.1 = none := by
      intro g' hg'
      rw [alookup_append_none _ _ _ (hdisj g' (List.mem_cons_of_mem _ hg'))]
      have hne : g.1 ≠ g'.1 := by
        intro hc
        exact hnodup.1 (hc ▸ List.mem_map.mpr ⟨g', hg', rfl⟩)
      rw [alookup, if_neg hne, alookup]
    rw [ih (acc ++ [g]) hdisj2 hnodup.2]
    simp

/-- C7: `SetArgsFromList` parses its token list so that every dash-prefixed
token begins a new flag, every subsequent non-flag token accumulates under
the current flag, and the accumulated tokens are joined with commas into one
string value before conversion (here: pended under the flag, nothing being
declared); a non-flag token appearing before any flag token makes the call
fail with the format error. -/
theorem setargs_from_list_parsing
    (t : String) (rest : List String) (ht : hasDashPrefix t = false)
    (groups : List (String × List String))
    (hflags : ∀ g ∈ groups, hasDashPrefix g.1 = false)
    (hvals : ∀ g ∈ groups, ∀ v ∈ g.2, hasDashPrefix v = false)
    (hnodup : (groups.map Prod.fst).Nodup) :
    SetArgsFromList ParamHolder.new (t :: rest)
        = Except.error ("encountered argument with no flag: " ++ t)
    ∧ parseCLITokens (flattenGroups groups) [] "" = Except.ok groups
    ∧ ∃ ph', SetArgsFromList ParamHolder.new (flattenGroups groups) = Except.ok ph'
        ∧ ∀ g ∈ groups, alookup ph'.pending g.1
            = some ⟨g.1, g.1, true, PVal.str (String.intercalate "," g.2)⟩ := by
  have hparse : parseCLITokens (flattenGroups groups) [] "" = Except.ok groups := by
    rw [parseCLITokens_groups groups [] "" hflags hvals,
      foldl_ainsert_append groups [] (fun _ _ => rfl) hnodup, List.nil_append]
  refine ⟨?_, hparse, ?_⟩
  · rw [SetArgsFromList, parseCLITokens,
      if_neg (by rw [ht]; exact Bool.false_ne_true)]
    rfl
  · refine ⟨⟨[], groups.foldl
        (fun a g =>
          ainsert a g.1 ⟨g.1, g.1, true, PVal.str (String.intercalate "," g.2)⟩) []⟩,
      ?_, ?_⟩
    · rw [SetArgsFromList, hparse]
      exact bindParsed_no_params [] groups
    · intro g hg
      exact alookup_foldl_ainsert
        (fun g' => (⟨g'.1, g'.1, true, PVal.str (String.intercalate "," g'.2)⟩ : PendingArg))
        groups [] g hg hnodup

/-- C7 witness: the tokens `-s hello -slice hello world` parse into
{s ↦ "hello", slice ↦ "hello,world"}, and a leading bare argument is a
format error. -/
theorem setargs_from_list_parsing_witness :
    SetArgsFromList ParamHolder.new ("hello" :: [])
        = Except.error ("encountered argument with no flag: " ++ "hello")
    ∧ parseCLITokens (flattenGroups [("s", ["hello"]), ("slice", ["hello", "world"])]) [] ""
        = Except.ok [("s", ["hello"]), ("slice", ["hello", "world"])]
    ∧ ∃ ph', SetArgsFromList ParamHolder.new
          (flattenGroups [("s", ["hello"]), ("slice", ["hello", "world"])]) = Except.ok ph'
        ∧ ∀ g ∈ [("s", ["hello"]), ("slice", ["hello", "world"])], alookup ph'.pending g.1
            = some ⟨g.1, g.1, true, PVal.str (String.intercalate "," g.2)⟩ :=
  setargs_from_list_parsing "hello" [] (by decide)
    [("s", ["hello"]), ("slice", ["hello", "world"])]
    (by decide) (by decide) (by decide)

end Janus
